import Mathlib

/-!
Verification of the freestanding VGA text-console driver and kernel entry
sequence (src/Examples/os/x86_64/vga.c and kernel.c).

The driver state is the memory-mapped display surface (a grid of
WIDTH x HEIGHT = 80 x 25 cells starting at a fixed base address), a cursor
(row, col) pair of C `int`s, and a fixed style byte.  We embed the state
shallowly: the grid is a total function from cell offsets (as the C code
computes them, `row*WIDTH + col`, an `int` expression, hence `Int`) to the
16-bit value stored, and the state additionally records `log`, the ordered
list of raw cell offsets at which a store to the display surface has been
performed — this makes "which addresses were written" a provable
proposition rather than a side effect lost in the model.
-/

namespace Vga

/-- `WIDTH = 80`, from `static const int WIDTH = 80;` in vga.c. -/
def WIDTH : Int := 80

/-- `HEIGHT = 25`, from `static const int HEIGHT = 25;` in vga.c. -/
def HEIGHT : Int := 25

/-- Driver state: cursor `row`/`col` (C `int`s), the display surface `grid`
(cell offset, as computed by the code, to stored 16-bit value), and `log`,
the ordered list of raw cell offsets ever stored to. -/
structure VgaState where
  row : Int
  col : Int
  grid : Int → Nat
  log : List Int

/-- The 16-bit value stored for character `c`:
`((uint16_t)color << 8) | (uint8_t)c` with `color = 0x0F`. -/
def vgaCell (c : Char) : Nat := (0x0F <<< 8) ||| (c.toNat % 256)

/-- The row actually used by a glyph store: `if (row >= HEIGHT) { row = 0; }`. -/
def wrapRow (s : VgaState) : Int := if HEIGHT ≤ s.row then 0 else s.row

/-- `putc` from vga.c:
```
static void putc(char c) {
    if (c == '\n') { row++; col = 0; return; }
    if (row >= HEIGHT) { row = 0; }
    VGA[row*WIDTH + col] = ((uint16_t)color << 8) | (uint8_t)c;
    col++;
    if (col >= WIDTH) { col = 0; row++; }
}
```
The store into `VGA[...]` updates `grid` at offset `wrapRow s * WIDTH + s.col`
and appends that offset to `log`. -/
def putc (c : Char) (s : VgaState) : VgaState :=
  if c = '\n' then { s with row := s.row + 1, col := 0 }
  else
    let r := wrapRow s
    let off := r * WIDTH + s.col
    let written : VgaState :=
      { row := r, col := s.col,
        grid := fun i => if i = off then vgaCell c else s.grid i,
        log := s.log ++ [off] }
    if WIDTH ≤ s.col + 1 then { written with col := 0, row := r + 1 }
    else { written with col := s.col + 1 }

/-- `vga_init` from vga.c: `void vga_init(void) { row = 0; col = 0; }`.
It touches neither the display surface nor the write log. -/
def vga_init (s : VgaState) : VgaState := { s with row := 0, col := 0 }

/-- `vga_write_string` from vga.c: `while (*s) { putc(*s++); }`.
A C string is modelled as the list of its characters before the NUL
terminator; the loop calls `putc` once per character, left to right. -/
def vga_write_string : List Char → VgaState → VgaState
  | [], s => s
  | c :: cs, s => vga_write_string cs (putc c s)

/-- Two's-complement wraparound negation of a 64-bit value: the effect of
`v = -v;` on an `int64_t` under wraparound (modulo `2^64`) semantics, the
semantics the analysed build exhibits.  For `-2^63 < v` this is exact
mathematical negation; at `v = -2^63` it returns `-2^63` itself. -/
def negWrap64 (v : Int) : Int := (-v + 2 ^ 63) % 2 ^ 64 - 2 ^ 63

/-- The digit-collection loop of `vga_write_int`:
`while (v>0 && n<31) { tmp[n++] = '0' + (v%10); v/=10; }`.
`fuel` is the remaining capacity of `tmp` (initially 31, since the loop
guard bounds `n < 31`); the result is the list of digit characters least
significant first, exactly the contents of `tmp[0..n)`. -/
def tmpDigits : Nat → Int → List Char
  | 0, _ => []
  | fuel + 1, v =>
    if 0 < v then Char.ofNat (48 + (v % 10).toNat) :: tmpDigits fuel (v / 10)
    else []

/-- The sequence of characters `vga_write_int v` feeds to `putc`, read off
from vga.c:
```
void vga_write_int(int64_t v) {
    char buf[32]; int i=0;
    if (v==0) { putc('0'); return; }
    if (v<0) { putc('-'); v = -v; }
    char tmp[32]; int n=0;
    while (v>0 && n<31) { tmp[n++] = '0' + (v%10); v/=10; }
    for (i=n-1;i>=0;i--) putc(tmp[i]);
}
```
The final loop emits `tmp` most significant digit first, i.e. reversed. -/
def writeIntChars (v : Int) : List Char :=
  if v = 0 then ['0']
  else if v < 0 then '-' :: (tmpDigits 31 (negWrap64 v)).reverse
  else (tmpDigits 31 v).reverse

/-- `vga_write_int` as a state transformer: it performs exactly the `putc`
calls of `writeIntChars v`, in order (the digit computation itself reads no
driver state). -/
def vga_write_int (v : Int) (s : VgaState) : VgaState :=
  (writeIntChars v).foldl (fun t c => putc c t) s

/-- The public operations of the console driver, for quantifying over
arbitrary call sequences. -/
inductive Op where
  | init
  | write_character (c : Char)
  | write_string (cs : List Char)
  | write_integer (v : Int)

/-- Interpretation of one driver call. -/
def runOp : Op → VgaState → VgaState
  | .init => vga_init
  | .write_character c => putc c
  | .write_string cs => vga_write_string cs
  | .write_integer v => vga_write_int v

/-- Interpretation of a sequence of driver calls, left to right. -/
def runOps : List Op → VgaState → VgaState
  | [], s => s
  | op :: ops, s => runOps ops (runOp op s)

/-- Reference decimal rendering of a natural number: the single glyph `0`
for zero, otherwise the base-10 digits (`Nat.digits`, least significant
first, provably free of a leading zero) reversed to most-significant-first
order and mapped to ASCII digit characters. -/
def decChars (n : Nat) : List Char :=
  if n = 0 then ['0']
  else ((Nat.digits 10 n).map fun d => Char.ofNat (48 + d)).reverse

/-- The reachable cursor invariant: the column is in `[0, WIDTH)` and the
row is nonnegative (the row may lie at or beyond `HEIGHT` between calls;
it is wrapped lazily by the next glyph store). -/
def CursorOk (s : VgaState) : Prop := 0 ≤ s.col ∧ s.col < WIDTH ∧ 0 ≤ s.row

/-- `t` extends `s` by appending only in-bounds cell offsets to the write
log: every store performed between state `s` and state `t` addressed a cell
offset in `[0, WIDTH*HEIGHT)`. -/
def LogStep (s t : VgaState) : Prop :=
  ∃ w, t.log = s.log ++ w ∧ ∀ o ∈ w, 0 ≤ o ∧ o < WIDTH * HEIGHT

theorem logStep_refl (s : VgaState) : LogStep s s :=
  ⟨[], by simp, by simp⟩

theorem logStep_trans {s t u : VgaState} (h1 : LogStep s t) (h2 : LogStep t u) :
    LogStep s u := by
  obtain ⟨w1, he1, hb1⟩ := h1
  obtain ⟨w2, he2, hb2⟩ := h2
  refine ⟨w1 ++ w2, by rw [he2, he1, List.append_assoc], ?_⟩
  intro o ho
  rcases List.mem_append.mp ho with h | h
  · exact hb1 o h
  · exact hb2 o h

theorem putc_cursorOk (c : Char) (s : VgaState) (h : CursorOk s) :
    CursorOk (putc c s) := by
  obtain ⟨h1, h2, h3⟩ := h
  unfold CursorOk putc wrapRow WIDTH HEIGHT at *
  split_ifs <;> simp_all <;> omega

theorem putc_logStep (c : Char) (s : VgaState) (h : CursorOk s) :
    LogStep s (putc c s) := by
  obtain ⟨h1, h2, h3⟩ := h
  by_cases hnl : c = '\n'
  · exact ⟨[], by simp [putc, hnl], by simp⟩
  · refine ⟨[wrapRow s * WIDTH + s.col], ?_, ?_⟩
    · simp only [putc, if_neg hnl]
      split_ifs <;> simp
    · intro o ho
      simp only [List.mem_singleton] at ho
      subst ho
      simp only [wrapRow, WIDTH, HEIGHT] at *
      split_ifs <;> constructor <;> omega

theorem putcFold_cursorOk (cs : List Char) (s : VgaState) (h : CursorOk s) :
    CursorOk (cs.foldl (fun t c => putc c t) s) := by
  induction cs generalizing s with
  | nil => exact h
  | cons c cs ih => exact ih (putc c s) (putc_cursorOk c s h)

theorem putcFold_logStep (cs : List Char) (s : VgaState) (h : CursorOk s) :
    LogStep s (cs.foldl (fun t c => putc c t) s) := by
  induction cs generalizing s with
  | nil => exact logStep_refl s
  | cons c cs ih =>
    exact logStep_trans (putc_logStep c s h) (ih (putc c s) (putc_cursorOk c s h))

theorem write_string_eq_foldl (cs : List Char) (s : VgaState) :
    vga_write_string cs s = cs.foldl (fun t c => putc c t) s := by
  induction cs generalizing s with
  | nil => rfl
  | cons c cs ih => simpa [vga_write_string] using ih (putc c s)

theorem runOp_cursorOk (op : Op) (s : VgaState) (h : CursorOk s) :
    CursorOk (runOp op s) := by
  cases op with
  | init =>
    exact ⟨by simp [runOp, vga_init], by simp [runOp, vga_init, WIDTH],
      by simp [runOp, vga_init]⟩
  | write_character c => exact putc_cursorOk c s h
  | write_string cs =>
    simpa [runOp, write_string_eq_foldl] using putcFold_cursorOk cs s h
  | write_integer v => exact putcFold_cursorOk _ s h

theorem runOp_logStep (op : Op) (s : VgaState) (h : CursorOk s) :
    LogStep s (runOp op s) := by
  cases op with
  | init => exact ⟨[], by simp [runOp, vga_init], by simp⟩
  | write_character c => exact putc_logStep c s h
  | write_string cs =>
    simpa [runOp, write_string_eq_foldl] using putcFold_logStep cs s h
  | write_integer v => exact putcFold_logStep _ s h

theorem runOps_cursorOk (ops : List Op) (s : VgaState) (h : CursorOk s) :
    CursorOk (runOps ops s) := by
  induction ops generalizing s with
  | nil => exact h
  | cons op ops ih => exact ih (runOp op s) (runOp_cursorOk op s h)

theorem runOps_logStep (ops : List Op) (s : VgaState) (h : CursorOk s) :
    LogStep s (runOps ops s) := by
  induction ops generalizing s with
  | nil => exact logStep_refl s
  | cons op ops ih =>
    exact logStep_trans (runOp_logStep op s h) (ih (runOp op s) (runOp_cursorOk op s h))

theorem init_cursorOk (s : VgaState) : CursorOk (vga_init s) := by
  refine ⟨?_, ?_, ?_⟩ <;> simp [vga_init, WIDTH]

theorem tmpDigits_nonpos (fuel : Nat) (v : Int) (h : v ≤ 0) :
    tmpDigits fuel v = [] := by
  cases fuel with
  | zero => rfl
  | succ n =>
    simp only [tmpDigits]
    rw [if_neg (by omega : ¬ (0 : Int) < v)]

/-- The digit-collection loop, run with enough fuel on a positive value,
produces exactly the base-10 digits of the value (least significant
first), as digit characters. -/
theorem tmpDigits_eq_digits (fuel : Nat) :
    ∀ v : Int, 0 < v → v.toNat < 10 ^ fuel →
      tmpDigits fuel v = (Nat.digits 10 v.toNat).map fun d => Char.ofNat (48 + d) := by
  induction fuel with
  | zero =>
    intro v hv hlt
    simp only [pow_zero] at hlt
    omega
  | succ n ih =>
    intro v hv hlt
    have hv0 : 0 < v.toNat := by omega
    rw [show tmpDigits (n + 1) v
        = Char.ofNat (48 + (v % 10).toNat) :: tmpDigits n (v / 10) by
      simp only [tmpDigits]
      rw [if_pos hv]]
    rw [Nat.digits_def' (by norm_num : (1 : Nat) < 10) hv0, List.map_cons]
    have hmod : (v % 10).toNat = v.toNat % 10 := by omega
    rw [hmod]
    congr 1
    rcases Nat.eq_zero_or_pos (v.toNat / 10) with h0 | hpos
    · have hz : v / 10 = 0 := by omega
      rw [h0, hz, tmpDigits_nonpos n 0 le_rfl]
      simp
    · have hq : (v / 10).toNat = v.toNat / 10 := by omega
      have hb : (v / 10).toNat < 10 ^ n := by
        have hp := pow_succ 10 n
        omega
      rw [ih (v / 10) (by omega) hb, hq]

theorem negWrap64_eq_neg (v : Int) (h0 : -(2 ^ 63) < v) (h1 : v < 0) :
    negWrap64 v = -v := by
  unfold negWrap64
  have h2 : (-v + 2 ^ 63) % 2 ^ 64 = -v + 2 ^ 63 :=
    Int.emod_eq_of_lt (by omega) (by omega)
  omega

/-- The externally supplied generated-logic functions declared by
gen_logic.h and called from kmain; the kernel treats their results as
opaque inputs, so they are parameters of the model. -/
structure GenLogic where
  banner : List Char
  meaning : Int
  add : Int → Int → Int
  max2 : Int → Int → Int
  demoExpr : Int

/-- Names of the five generated-logic functions kmain invokes. -/
inductive LogicFn where
  | banner
  | meaning
  | add
  | max2
  | demoExpr
  deriving DecidableEq

/-- Observable actions of `kmain`, in program order: console initialization,
a string or integer handed to the console driver, or an invocation of one
generated-logic function. -/
inductive KEvent where
  | initConsole
  | emitStr (cs : List Char)
  | emitInt (v : Int)
  | callLogic (f : LogicFn)
  deriving DecidableEq

/-- Recognizes generated-logic invocation events. -/
def isCall : KEvent → Bool
  | .callLogic _ => true
  | _ => false

/-- The one-character newline string. -/
def newlineStr : List Char := ['\n']

/-- `kputs` from kernel.c:
`static void kputs(const char* s) { vga_write_string(s); vga_write_string("\n"); }`. -/
def kputsEvents (cs : List Char) : List KEvent :=
  [.emitStr cs, .emitStr newlineStr]

/-- The straight-line action trace of `kmain` from kernel.c: `vga_init()`;
`kputs("FUSE kernel online")`; the five generated-logic calls (lines 11-16,
all evaluated before any result is rendered); then one labeled line per
result; after which control enters the halt loop. -/
def kmainTrace (L : GenLogic) : List KEvent :=
  [.initConsole] ++ kputsEvents ("FUSE kernel online".toList) ++
  [.callLogic .banner, .callLogic .meaning, .callLogic .add,
    .callLogic .max2, .callLogic .demoExpr] ++
  [.emitStr ("banner: ".toList), .emitStr L.banner, .emitStr newlineStr] ++
  [.emitStr ("meaning: ".toList), .emitInt L.meaning, .emitStr newlineStr] ++
  [.emitStr ("add(20,22): ".toList), .emitInt (L.add 20 22), .emitStr newlineStr] ++
  [.emitStr ("max2(11,17): ".toList), .emitInt (L.max2 11 17), .emitStr newlineStr] ++
  [.emitStr ("demo_expr: ".toList), .emitInt L.demoExpr, .emitStr newlineStr]

/-- Control states of the kernel entry point: `entry` covers the
straight-line body of `kmain`; `idle` is the terminal
`for(;;) { __asm__ __volatile__("hlt"); }` state. -/
inductive KState where
  | entry
  | idle
  deriving DecidableEq

/-- Kernel control-flow step: the straight-line body runs to completion and
enters `idle`; `idle` has no outgoing transition — control is never
returned to any caller. -/
def kernelStep : KState → Option KState
  | .entry => some .idle
  | .idle => none

/-- A concrete driver state (cursor at row 3, column 7, blank surface,
empty write log) used to instantiate universally quantified theorems. -/
def sampleState : VgaState := ⟨3, 7, fun _ => 0, []⟩

/-- The contract of a non-newline `write_character(c)` call from state `s`
(spec §4.1): the store row is the current row wrapped to 0 exactly when it
is at or beyond `HEIGHT`, with the column untouched by the wrap; the cell
value for `c` is stored at the (wrapped-row, current-column) cell and only
there, and that store is the single store performed; then the column
advances by exactly one, moving to `(row+1, 0)` iff it would reach
`WIDTH`. -/
def GlyphWriteContract (c : Char) (s : VgaState) : Prop :=
  (HEIGHT ≤ s.row → wrapRow s = 0) ∧
  (s.row < HEIGHT → wrapRow s = s.row) ∧
  (putc c s).grid (wrapRow s * WIDTH + s.col) = vgaCell c ∧
  (∀ i, i ≠ wrapRow s * WIDTH + s.col → (putc c s).grid i = s.grid i) ∧
  (putc c s).log = s.log ++ [wrapRow s * WIDTH + s.col] ∧
  (s.col + 1 = WIDTH → (putc c s).col = 0 ∧ (putc c s).row = wrapRow s + 1) ∧
  (s.col + 1 ≠ WIDTH → (putc c s).col = s.col + 1 ∧ (putc c s).row = wrapRow s)

/-- C1: every cell write performed by `write_character` — under any
sequence of `initialize`/`write_character`/`write_string`/`write_integer`
calls starting from `initialize()` — stores to a cell offset in
`[0, WIDTH*HEIGHT)`: the write log only grows by in-bounds offsets. -/
theorem writes_always_in_bounds (ops : List Op) (s : VgaState) :
    ∃ w, (runOps ops (vga_init s)).log = s.log ++ w ∧
      ∀ o ∈ w, 0 ≤ o ∧ o < WIDTH * HEIGHT := by
  obtain ⟨w, he, hb⟩ := runOps_logStep ops (vga_init s) (init_cursorOk s)
  exact ⟨w, he, hb⟩

/-- C2 counterexample: after `initialize()` followed by 25
`write_character('\n')` calls, the cursor row equals `HEIGHT` (25): the
cursor does remain at a row at or beyond `HEIGHT` after an operation, so
"the cursor never remains at a row at or beyond HEIGHT" is false — the
wrap to row 0 only happens at the start of the next glyph write. -/
theorem cursor_row_can_reach_height :
    HEIGHT ≤ (runOps (List.replicate 25 (Op.write_character '\n'))
      (vga_init sampleState)).row := by decide

/-- C2 (amended): after every operation sequence from `initialize()`, the
column satisfies `0 ≤ col < WIDTH` and the row is nonnegative; the row is
wrapped to 0 at the start of the next glyph write when it is at or beyond
`HEIGHT` (so every glyph is stored at a row in `[0, HEIGHT)`), but the
cursor row itself may transiently remain at or beyond `HEIGHT` between
operations. -/
theorem cursor_invariant_wrap_lazy (ops : List Op) (s : VgaState) :
    0 ≤ (runOps ops (vga_init s)).col ∧
    (runOps ops (vga_init s)).col < WIDTH ∧
    0 ≤ (runOps ops (vga_init s)).row ∧
    0 ≤ wrapRow (runOps ops (vga_init s)) ∧
    wrapRow (runOps ops (vga_init s)) < HEIGHT := by
  obtain ⟨h1, h2, h3⟩ := runOps_cursorOk ops (vga_init s) (init_cursorOk s)
  refine ⟨h1, h2, h3, ?_, ?_⟩ <;>
    simp only [wrapRow, HEIGHT] at * <;> split_ifs <;> omega

/-- C3: for a non-newline character `c`, `write_character(c)` first wraps
the row to 0 iff the current row is at or beyond `HEIGHT` (column untouched
by the wrap), stores `c`'s cell value at the current cursor cell and only
there, then advances the column by exactly one, wrapping to `(row+1, 0)`
iff the column would reach `WIDTH`. -/
theorem write_character_glyph_step (c : Char) (s : VgaState)
    (hc : c ≠ '\n') (hcol : s.col < WIDTH) : GlyphWriteContract c s := by
  have hw1 : HEIGHT ≤ s.row → wrapRow s = 0 := fun h => by
    simp [wrapRow, if_pos h]
  have hw2 : s.row < HEIGHT → wrapRow s = s.row := fun h => by
    simp only [wrapRow]
    rw [if_neg (by omega : ¬ HEIGHT ≤ s.row)]
  refine ⟨hw1, hw2, ?_, ?_, ?_, ?_, ?_⟩ <;>
    simp only [putc, if_neg hc] <;> split_ifs with h
  · simp
  · simp
  · intro i hi
    simp [if_neg hi]
  · intro i hi
    simp [if_neg hi]
  · simp
  · simp
  · intro _
    simp
  · intro hcw
    omega
  · intro hcw
    omega
  · intro _
    simp

/-- C3 witness at `c = 'A'` from `sampleState`. -/
theorem write_character_glyph_step_witness : GlyphWriteContract 'A' sampleState :=
  write_character_glyph_step 'A' sampleState (by decide) (by decide)

/-- C4: `write_character('\n')` moves the cursor to `(row+1, 0)` regardless
of the current column, stores nothing (the write log is unchanged), and
leaves the entire display surface unchanged. -/
theorem write_character_newline (s : VgaState) :
    (putc '\n' s).row = s.row + 1 ∧ (putc '\n' s).col = 0 ∧
    (putc '\n' s).grid = s.grid ∧ (putc '\n' s).log = s.log := by
  refine ⟨?_, ?_, ?_, ?_⟩ <;> simp [putc]

/-- C5: for every 64-bit-representable `v ≥ 0`, `write_integer(v)` feeds to
`write_character` exactly the decimal representation of `v` — the single
glyph `0` for `v = 0`, else the base-10 digits of `v` most significant
first with no leading zeros (`decChars`, built on `Nat.digits`) — and its
effect on the driver state is exactly that of `write_string` on that
decimal string. -/
theorem write_integer_nonneg_decimal (v : Int) (h0 : 0 ≤ v) (h1 : v < 2 ^ 63) :
    writeIntChars v = decChars v.toNat ∧
    ∀ s, vga_write_int v s = vga_write_string (decChars v.toNat) s := by
  have hmain : writeIntChars v = decChars v.toNat := by
    rcases eq_or_lt_of_le h0 with h | h
    · rw [← h]
      decide
    · have hv0 : ¬ v = 0 := by omega
      have hnn : ¬ v < 0 := by omega
      have hlt : v.toNat < 10 ^ 31 := by
        have h2 : (2 : Int) ^ 63 < 10 ^ 31 := by norm_num
        omega
      unfold writeIntChars decChars
      rw [if_neg hv0, if_neg hnn, if_neg (by omega : ¬ v.toNat = 0),
        tmpDigits_eq_digits 31 v h hlt]
  refine ⟨hmain, fun s => ?_⟩
  rw [vga_write_int, hmain, write_string_eq_foldl]

/-- C5 witness: `write_integer(42)` emits exactly the decimal digits of 42. -/
theorem write_integer_nonneg_decimal_witness :
    writeIntChars 42 = decChars (42 : Int).toNat :=
  (write_integer_nonneg_decimal 42 (by decide) (by decide)).1

/-- C6 counterexample: at `v = -2^63` (a signed 64-bit integer with
`v < 0`), `write_integer(v)` does not emit a minus sign followed by the
decimal digits of `-v = 2^63` — it emits the minus sign alone, because the
wrapped negation leaves the value non-positive and the digit loop runs
zero times. -/
theorem write_integer_min_breaks_neg_claim :
    ¬ writeIntChars (-(2 ^ 63)) = '-' :: decChars (2 ^ 63) := by
  intro h
  have h1 : writeIntChars (-(2 ^ 63)) = ['-'] := by decide
  rw [h1] at h
  injection h with h2 h3
  unfold decChars at h3
  rw [if_neg (by norm_num : ¬ (2 ^ 63 : Nat) = 0)] at h3
  have h5 : ((Nat.digits 10 (2 ^ 63)).map fun d => Char.ofNat (48 + d)).reverse = [] :=
    h3.symm
  simp at h5

/-- C6 (amended): for every signed 64-bit `v` with `-2^63 < v < 0`,
`write_integer(v)` emits a minus sign followed by the decimal digits of
`-v`; the excluded endpoint `v = -2^63` instead emits the minus sign alone
(its two's-complement negation wraps back to `-2^63`). -/
theorem write_integer_neg_decimal (v : Int) (h0 : -(2 ^ 63) < v) (h1 : v < 0) :
    writeIntChars v = '-' :: decChars (-v).toNat ∧
    ∀ s, vga_write_int v s = vga_write_string ('-' :: decChars (-v).toNat) s := by
  have hmain : writeIntChars v = '-' :: decChars (-v).toNat := by
    have hv0 : ¬ v = 0 := by omega
    have hlt : (-v).toNat < 10 ^ 31 := by
      have h2 : (2 : Int) ^ 63 < 10 ^ 31 := by norm_num
      omega
    unfold writeIntChars decChars
    rw [if_neg hv0, if_pos h1, negWrap64_eq_neg v h0 h1,
      if_neg (by omega : ¬ (-v).toNat = 0),
      tmpDigits_eq_digits 31 (-v) (by omega) hlt]
  refine ⟨hmain, fun s => ?_⟩
  rw [vga_write_int, hmain, write_string_eq_foldl]

/-- C6 witness: `write_integer(-7)` emits the minus sign and then the
decimal digits of 7. -/
theorem write_integer_neg_decimal_witness :
    writeIntChars (-7) = '-' :: decChars (-(-7) : Int).toNat :=
  (write_integer_neg_decimal (-7) (by decide) (by decide)).1

/-- C7: `write_string(s)` is exactly the left-to-right sequence of
`write_character` calls, one per character of `s` up to the terminator:
in general it equals the left fold of `putc` over the characters, and on
the spec's example `"AB\nC"` it equals the four nested `putc` calls. -/
theorem write_string_decomposes :
    (∀ cs s, vga_write_string cs s = cs.foldl (fun t c => putc c t) s) ∧
    ∀ s, vga_write_string ("AB\nC".toList) s =
      putc 'C' (putc '\n' (putc 'B' (putc 'A' s))) := by
  exact ⟨write_string_eq_foldl, fun s => rfl⟩

/-- C8: `initialize()` sets the cursor to `(0,0)` while leaving every cell
of the display surface (and the write log) untouched, and it is idempotent:
a second call yields the same state, cursor `(0,0)` both times, with
contents undisturbed. -/
theorem initialize_resets_cursor_idempotent (s : VgaState) :
    (vga_init s).row = 0 ∧ (vga_init s).col = 0 ∧
    (vga_init s).grid = s.grid ∧ (vga_init s).log = s.log ∧
    vga_init (vga_init s) = vga_init s := ⟨rfl, rfl, rfl, rfl, rfl⟩

/-- C10: under two's-complement wraparound negation, `write_integer(-2^63)`
emits exactly one glyph, the minus sign: the negation wraps back to
`-2^63`, which is not positive, so the digit loop contributes nothing. -/
theorem write_integer_min_emits_minus_only :
    negWrap64 (-(2 ^ 63)) = -(2 ^ 63) ∧ writeIntChars (-(2 ^ 63)) = ['-'] := by
  exact ⟨by decide, by decide⟩

/-- C9: for any supplied generated logic `L`, the `kmain` action trace
first initializes the console, then emits the startup banner string (and
its newline), invokes each of the five generated-logic functions exactly
once (the filtered call subtrace is exactly the five calls, in program
order), renders each result as a labeled line — label, rendered value,
newline, contiguously, at positions 8-10, 11-13, 14-16, 17-19 and 20-22 of
the 23-event trace — and the kernel control machine then sits in the
terminal `idle` state, which has no outgoing transition. -/
theorem kmain_boot_sequence (L : GenLogic) :
    (kmainTrace L).head? = some .initConsole ∧
    (kmainTrace L)[1]? = some (.emitStr ("FUSE kernel online".toList)) ∧
    (kmainTrace L)[2]? = some (.emitStr newlineStr) ∧
    (kmainTrace L).filter isCall =
      [.callLogic .banner, .callLogic .meaning, .callLogic .add,
        .callLogic .max2, .callLogic .demoExpr] ∧
    (kmainTrace L).length = 23 ∧
    ((kmainTrace L).drop 8).take 3 =
      [.emitStr ("banner: ".toList), .emitStr L.banner, .emitStr newlineStr] ∧
    ((kmainTrace L).drop 11).take 3 =
      [.emitStr ("meaning: ".toList), .emitInt L.meaning, .emitStr newlineStr] ∧
    ((kmainTrace L).drop 14).take 3 =
      [.emitStr ("add(20,22): ".toList), .emitInt (L.add 20 22), .emitStr newlineStr] ∧
    ((kmainTrace L).drop 17).take 3 =
      [.emitStr ("max2(11,17): ".toList), .emitInt (L.max2 11 17), .emitStr newlineStr] ∧
    ((kmainTrace L).drop 20).take 3 =
      [.emitStr ("demo_expr: ".toList), .emitInt L.demoExpr, .emitStr newlineStr] ∧
    kernelStep .entry = some .idle ∧ kernelStep .idle = none := by
  refine ⟨rfl, rfl, rfl, rfl, rfl, rfl, rfl, rfl, rfl, rfl, rfl, rfl⟩

end Vga
